import Mathlib

/-!
Verification development for the img-gen-arkiv pipeline.

The definitions below are a shallow embedding of the repository
sources:

* prompt_generator.py — the SQLite-backed job store: a table
  generations(id AUTOINCREMENT, prompt UNIQUE, status, filename,
  created_at, completed_at) together with the status-transition
  helpers.
* arkiv_uploader.py — client construction and the upload entry point.
* main.py — the threaded producer/consumer pipeline
  (generator thread, uploader thread, bounded hand-off queue, startup
  recovery).

The store is modelled as a list of rows plus the AUTOINCREMENT
counter.  SQL UPDATE ... WHERE id = ? becomes a map over the rows;
SELECT ... WHERE status = ? ORDER BY id LIMIT 1 becomes List.argmin
over the filtered rows.  Timestamps are abstracted to a Boolean flag
recording whether completed_at is non-NULL, which is all the spec
claims speak about.
-/

namespace ImgGenArkiv

/-- Status values actually stored by the code in the status column. -/
inductive Status
  | pending
  | in_progress
  | generated
  | completed
deriving DecidableEq, Repr

/-- One row of the generations table.  completedAt records whether the
completed_at column is non-NULL; filename is NULL-able. -/
structure Job where
  id : Nat
  prompt : String
  status : Status
  filename : Option String
  completedAt : Bool
deriving DecidableEq, Repr

/-- The generations table plus the AUTOINCREMENT counter for id. -/
structure Store where
  jobs : List Job
  nextId : Nat
deriving DecidableEq, Repr

/-- A fresh database, as produced by init_db: no rows, ids start at 1. -/
def emptyStore : Store := ⟨[], 1⟩

/-- SELECT * FROM generations WHERE id = ? (first matching row). -/
def Store.find (s : Store) (i : Nat) : Option Job :=
  s.jobs.find? (fun j => j.id == i)

/-- UPDATE ... WHERE id = ?: apply f to every row whose id matches. -/
def updateJob (s : Store) (i : Nat) (f : Job → Job) : Store :=
  { s with jobs := s.jobs.map (fun j => if j.id = i then f j else j) }

/-- get_next_prompt (prompt_generator.py:254): SELECT id, prompt FROM
generations WHERE status = pending ORDER BY id LIMIT 1.  Pure read,
returns the lowest-id pending row, none when there is none. -/
def get_next_prompt (s : Store) : Option Job :=
  (s.jobs.filter (fun j => j.status == Status.pending)).argmin Job.id

/-- mark_in_progress (prompt_generator.py:274): UPDATE generations SET
status = in_progress WHERE id = ?. -/
def mark_in_progress (i : Nat) (s : Store) : Store :=
  updateJob s i (fun j => { j with status := Status.in_progress })

/-- mark_completed (prompt_generator.py:287): UPDATE generations SET
status = completed, filename = ?, completed_at = CURRENT_TIMESTAMP
WHERE id = ?. -/
def mark_completed (i : Nat) (fn : String) (s : Store) : Store :=
  updateJob s i (fun j =>
    { j with status := Status.completed, filename := some fn, completedAt := true })

/-- mark_failed (prompt_generator.py:302): UPDATE generations SET
status = pending WHERE id = ?.  Filename and completed_at are left
untouched by the SQL statement. -/
def mark_failed (i : Nat) (s : Store) : Store :=
  updateJob s i (fun j => { j with status := Status.pending })

/-- mark_generated (prompt_generator.py:372): UPDATE generations SET
status = generated, filename = ? WHERE id = ?. -/
def mark_generated (i : Nat) (fn : String) (s : Store) : Store :=
  updateJob s i (fun j =>
    { j with status := Status.generated, filename := some fn })

/-- get_next_generated (prompt_generator.py:385): SELECT id, prompt,
filename FROM generations WHERE status = generated ORDER BY id LIMIT 1.
Defined and imported by main.py but never called there. -/
def get_next_generated (s : Store) : Option Job :=
  (s.jobs.filter (fun j => j.status == Status.generated)).argmin Job.id

/-- Count of rows with a given status (the COUNT(*) WHERE status = ?
queries of get_stats and reset_interrupted). -/
def countStatus (s : Store) (st : Status) : Nat :=
  (s.jobs.filter (fun j => j.status == st)).length

/-- Aggregate counters returned by get_stats (prompt_generator.py:315). -/
structure Stats where
  total : Nat
  pending : Nat
  completed : Nat
  in_progress : Nat
  generated : Nat
deriving DecidableEq, Repr

/-- get_stats (prompt_generator.py:315). -/
def get_stats (s : Store) : Stats :=
  { total := s.jobs.length
    pending := countStatus s Status.pending
    completed := countStatus s Status.completed
    in_progress := countStatus s Status.in_progress
    generated := countStatus s Status.generated }

/-- reset_interrupted (prompt_generator.py:416): UPDATE generations SET
status = pending WHERE status = in_progress (gen_reset = rowcount),
then SELECT COUNT(*) WHERE status = generated (pending_uploads, counted
after the update).  Returns the updated store and both counters. -/
def reset_interrupted (s : Store) : Store × Nat × Nat :=
  let genReset := countStatus s Status.in_progress
  let s1 : Store :=
    { s with jobs := s.jobs.map (fun j =>
        if j.status = Status.in_progress then { j with status := Status.pending } else j) }
  let pendingUploads := countStatus s1 Status.generated
  (s1, genReset, pendingUploads)

/-- INSERT OR IGNORE INTO generations (prompt) VALUES (?): a new row in
status pending with NULL filename unless a row with that prompt already
exists (prompt is UNIQUE); AUTOINCREMENT assigns the next id. -/
def insert_or_ignore (s : Store) (p : String) : Store :=
  if s.jobs.any (fun j => j.prompt == p) then s
  else
    { jobs := s.jobs ++ [⟨s.nextId, p, Status.pending, none, false⟩]
      nextId := s.nextId + 1 }

/-- seed_database (prompt_generator.py:215): INSERT OR IGNORE each
prompt in order, then return SELECT COUNT(*) FROM generations. -/
def seed_database (prompts : List String) (s : Store) : Store × Nat :=
  let s1 := prompts.foldl insert_or_ignore s
  (s1, s1.jobs.length)

/-! Model of arkiv_uploader.py and the upload path of main.py. -/

/-- Python exceptions that the modelled code can raise. -/
inductive PyError
  | typeError
  | runtimeError (msg : String)
  | uploadError
deriving DecidableEq, Repr

/-- Environment variables read by arkiv_uploader.py. -/
structure Env where
  privateKey : Option String
  rpcUrl : Option String
deriving DecidableEq, Repr

/-- Truthiness of an optional string in Python: None and the empty
string are falsy (the code guards use if not PRIVATE_KEY). -/
def pyFalsy : Option String → Bool
  | none => true
  | some s => s.isEmpty

/-- get_arkiv_client (arkiv_uploader.py:14): raises RuntimeError when
PRIVATE_KEY or RPC_URL is missing, otherwise builds the client.  The
client object itself is abstracted to Unit. -/
def get_arkiv_client (env : Env) : Except PyError Unit :=
  if pyFalsy env.privateKey then
    Except.error (PyError.runtimeError "PRIVATE_KEY not found in .env file")
  else if pyFalsy env.rpcUrl then
    Except.error (PyError.runtimeError "RPC_URL not found in .env file")
  else Except.ok ()

/-- Signature of a Python function as far as positional calls are
concerned: number of formal parameters and how many of them carry a
default value. -/
structure PyFunctionSig where
  params : Nat
  defaults : Nat
deriving DecidableEq, Repr

/-- upload_image_to_arkiv (arkiv_uploader.py:30) declares four
parameters (image_data, prompt, image_id, content_type), the last one
with a default. -/
def upload_image_to_arkiv_sig : PyFunctionSig := ⟨4, 1⟩

/-- A positional call with nargs arguments binds without a TypeError
exactly when params - defaults <= nargs <= params. -/
def posCallOk (sig : PyFunctionSig) (nargs : Nat) : Bool :=
  decide (sig.params - sig.defaults ≤ nargs) && decide (nargs ≤ sig.params)

/-- The call site in upload_to_arkiv (main.py:197) passes five
positional arguments: image_data, prompt, image_id, content_type,
app_name. -/
def upload_to_arkiv_nargs : Nat := 5

/-- Result dict of a successful upload. -/
structure UploadResult where
  success : Bool
  entityKey : String
  txHash : String
deriving DecidableEq, Repr

/-- Body of upload_image_to_arkiv (arkiv_uploader.py:30): build the
client, then call arkiv.create_entity.  The external blockchain call is
abstracted as the oracle createEntity giving either the pair
(entity_key, tx_hash) or an exception. -/
def upload_image_to_arkiv (env : Env)
    (createEntity : Except PyError (String × String)) :
    Except PyError UploadResult :=
  match get_arkiv_client env with
  | Except.error e => Except.error e
  | Except.ok _ =>
    match createEntity with
    | Except.error e => Except.error e
    | Except.ok (ek, th) => Except.ok ⟨true, ek, th⟩

/-- upload_to_arkiv (main.py:179): reads the file, then performs the
positional call upload_image_to_arkiv(image_data, prompt, image_id,
content_type, app_name).  Python checks the arity of the call before
executing the callee body, so a mismatch raises TypeError without the
body (and hence without any upload attempt) running. -/
def upload_to_arkiv (env : Env)
    (createEntity : Except PyError (String × String)) :
    Except PyError UploadResult :=
  if posCallOk upload_image_to_arkiv_sig upload_to_arkiv_nargs then
    upload_image_to_arkiv env createEntity
  else Except.error PyError.typeError

/-- MAX_IMAGE_SIZE_KB (main.py:53). -/
def MAX_IMAGE_SIZE_KB : Nat := 117

/-- UPLOAD_QUEUE_SIZE (main.py:57): maxsize of the hand-off queue. -/
def UPLOAD_QUEUE_SIZE : Nat := 5

/-- An element of the hand-off queue (dataclass GeneratedImage,
main.py:64).  image_id always equals prompt_id at both construction
sites, so it is not duplicated here. -/
structure QItem where
  prompt_id : Nat
  image_path : String
deriving DecidableEq, Repr

/-- Body of the uploader thread for one dequeued item
(main.py:338-355): skip the upload and mark completed when the file
exceeds MAX_IMAGE_SIZE_KB (the Python test size_bytes / 1024 > 117 on
exact power-of-two float division is size_bytes > 117 * 1024);
otherwise attempt upload_to_arkiv and mark completed on success; any
exception is caught and the job is re-marked generated.  sizeBytes is
the os.path.getsize oracle. -/
def uploader_process (env : Env)
    (createEntity : Except PyError (String × String))
    (sizeBytes : Nat) (it : QItem) (s : Store) : Store :=
  if MAX_IMAGE_SIZE_KB * 1024 < sizeBytes then
    mark_completed it.prompt_id it.image_path s
  else
    match upload_to_arkiv env createEntity with
    | Except.ok _ => mark_completed it.prompt_id it.image_path s
    | Except.error _ => mark_generated it.prompt_id it.image_path s

/-- Portion of run_threaded_generator (main.py:363-401) that runs
before any worker thread starts: get_theme, seed_database,
reset_interrupted, get_stats, clearing the shutdown event and starting
the threads.  None of these statements reads PRIVATE_KEY or RPC_URL and
none of them can raise for missing credentials, so the phase is total
in env; its store effect is seeding followed by recovery. -/
def pre_worker_phase (env : Env) (prompts : List String) (s : Store) :
    Except PyError Store :=
  let seeded := (seed_database prompts s).1
  let recovered := (reset_interrupted seeded).1
  Except.ok recovered

/-- Output file path built by generate_image_only (main.py:233):
output/<theme prefix>_<image_id>.png. -/
def output_path (pre : String) (imageId : Nat) : String :=
  "output/" ++ pre ++ "_" ++ toString imageId ++ ".png"

/-! The two-thread run as a transition system.  A run state carries the
store, the contents of the bounded hand-off queue, the control point of
the generator thread and the item currently held by the uploader
thread. -/

/-- Control point of the generator thread inside its loop
(main.py:274-318). -/
inductive ProdState
  | idle
  | working (id : Nat)
  | enqueuing (it : QItem)
  | stopped
deriving DecidableEq, Repr

/-- Global state of one threaded run. -/
structure RunState where
  store : Store
  queue : List QItem
  prod : ProdState
  cons : Option QItem
deriving DecidableEq, Repr

/-- Interleaving semantics of generator_thread (main.py:265) and
uploader_thread (main.py:323).  pre is the theme output file name
component.  Generation and upload outcomes are external and therefore
nondeterministic; queue.put is enabled only while the queue holds fewer
than UPLOAD_QUEUE_SIZE items (a full queue blocks the producer). -/
inductive Step (pre : String) : RunState → RunState → Prop
  | claim (r : RunState) (j : Job) :
      r.prod = ProdState.idle →
      get_next_prompt r.store = some j →
      Step pre r { r with store := mark_in_progress j.id r.store,
                          prod := ProdState.working j.id }
  | claimNone (r : RunState) :
      r.prod = ProdState.idle →
      get_next_prompt r.store = none →
      Step pre r { r with prod := ProdState.stopped }
  | genSuccess (r : RunState) (i : Nat) :
      r.prod = ProdState.working i →
      Step pre r { r with store := mark_generated i (output_path pre i) r.store,
                          prod := ProdState.enqueuing ⟨i, output_path pre i⟩ }
  | genSuccessNoUpload (r : RunState) (i : Nat) :
      r.prod = ProdState.working i →
      Step pre r { r with store := mark_completed i (output_path pre i) r.store,
                          prod := ProdState.idle }
  | genFail (r : RunState) (i : Nat) :
      r.prod = ProdState.working i →
      Step pre r { r with store := mark_failed i r.store,
                          prod := ProdState.idle }
  | enqueue (r : RunState) (it : QItem) :
      r.prod = ProdState.enqueuing it →
      r.queue.length < UPLOAD_QUEUE_SIZE →
      Step pre r { r with queue := r.queue ++ [it], prod := ProdState.idle }
  | dequeue (r : RunState) (it : QItem) (rest : List QItem) :
      r.cons = none →
      r.queue = it :: rest →
      Step pre r { r with queue := rest, cons := some it }
  | consProcess (r : RunState) (it : QItem) (env : Env)
      (createEntity : Except PyError (String × String)) (sizeBytes : Nat) :
      r.cons = some it →
      Step pre r { r with store := uploader_process env createEntity sizeBytes it r.store,
                          cons := none }

/-- Run state at thread start: the queue is empty, the generator is at
the top of its loop, the uploader holds nothing. -/
def initRun (s : Store) : RunState := ⟨s, [], ProdState.idle, none⟩

/-- Reflexive-transitive closure of Step from a given state. -/
inductive RunReach (pre : String) (r0 : RunState) : RunState → Prop
  | refl : RunReach pre r0 r0
  | step {r r' : RunState} : RunReach pre r0 r → Step pre r r' → RunReach pre r0 r'

/-- Store states reachable across any sequence of program runs:
starting from a fresh database, seeding, startup recovery, and
stopping a threaded run at any point (a crash may interrupt a run
anywhere, and the next run sees the store it left behind). -/
inductive ReachStore : Store → Prop
  | empty : ReachStore emptyStore
  | seed (ps : List String) (s : Store) :
      ReachStore s → ReachStore (seed_database ps s).1
  | reset (s : Store) :
      ReachStore s → ReachStore (reset_interrupted s).1
  | run (pre : String) (s : Store) (r : RunState) :
      ReachStore s → RunReach pre (initRun s) r → ReachStore r.store

/-! Invariants of the job table and helper lemmas about the embedded
store operations. -/

/-- Record-level invariant: the filename column is set (and not the
empty string) exactly on rows in status generated or completed, and the
completed_at column is set exactly on completed rows. -/
def JobInv (j : Job) : Prop :=
  ((j.status = Status.generated ∨ j.status = Status.completed) →
     j.filename ≠ none ∧ j.filename ≠ some "") ∧
  ((j.status = Status.pending ∨ j.status = Status.in_progress) →
     j.filename = none) ∧
  (j.completedAt = true ↔ j.status = Status.completed)

instance (j : Job) : Decidable (JobInv j) := by
  unfold JobInv; infer_instance

/-- Table-level invariant: every row satisfies JobInv, ids are
pairwise distinct, and every id is below the AUTOINCREMENT counter. -/
def StoreInv (s : Store) : Prop :=
  (∀ j ∈ s.jobs, JobInv j) ∧
  (s.jobs.map Job.id).Nodup ∧
  (∀ j ∈ s.jobs, j.id < s.nextId)

instance (s : Store) : Decidable (StoreInv s) := by
  unfold StoreInv; infer_instance

theorem find?_map_of_id_pres {l : List Job} {g : Job → Job}
    (hg : ∀ j, (g j).id = j.id) (i : Nat) :
    (l.map g).find? (fun j => j.id == i) = (l.find? (fun j => j.id == i)).map g := by
  induction l with
  | nil => rfl
  | cons a t ih =>
    by_cases h : a.id = i
    · rw [List.map_cons, List.find?_cons_of_pos _ (by simp [hg, h]),
        List.find?_cons_of_pos _ (by simp [h])]
      rfl
    · rw [List.map_cons, List.find?_cons_of_neg _ (by simp [hg, h]),
        List.find?_cons_of_neg _ (by simp [h]), ih]

theorem updateJob_find (s : Store) (i : Nat) (f : Job → Job)
    (hf : ∀ j, (f j).id = j.id) (k : Nat) :
    (updateJob s i f).find k
      = (s.find k).map (fun j => if j.id = i then f j else j) := by
  unfold updateJob Store.find
  exact find?_map_of_id_pres (fun j => by by_cases h : j.id = i <;> simp [h, hf]) k

theorem updateJob_ids (s : Store) (i : Nat) (f : Job → Job)
    (hf : ∀ j, (f j).id = j.id) :
    (updateJob s i f).jobs.map Job.id = s.jobs.map Job.id := by
  unfold updateJob
  rw [List.map_map]
  apply List.map_congr_left
  intro a _
  by_cases h : a.id = i <;> simp [h, hf]

theorem mem_updateJob {s : Store} {i : Nat} {f : Job → Job} {j' : Job} :
    j' ∈ (updateJob s i f).jobs ↔
      ∃ j ∈ s.jobs, j' = if j.id = i then f j else j := by
  simp only [updateJob, List.mem_map]
  constructor
  · rintro ⟨j, hj, rfl⟩; exact ⟨j, hj, rfl⟩
  · rintro ⟨j, hj, rfl⟩; exact ⟨j, hj, rfl⟩

theorem find_eq_some_iff_aux {s : Store} {k : Nat} {j : Job}
    (h : s.find k = some j) : j ∈ s.jobs ∧ j.id = k := by
  refine ⟨List.mem_of_find?_eq_some h, ?_⟩
  have := List.find?_some h
  simpa using this

theorem find?_id_of_mem_nodup {l : List Job} (hn : (l.map Job.id).Nodup)
    {j : Job} (hj : j ∈ l) : l.find? (fun k => k.id == j.id) = some j := by
  induction l with
  | nil => cases hj
  | cons a t ih =>
    rcases List.mem_cons.mp hj with rfl | hmem
    · exact List.find?_cons_of_pos _ (by simp)
    · have hna : a.id ≠ j.id := by
        intro h
        have : a.id ∈ t.map Job.id := h ▸ List.mem_map_of_mem Job.id hmem
        exact (List.nodup_cons.mp (by simpa using hn)).1 this
      rw [List.find?_cons_of_neg _ (by simp [hna])]
      exact ih (List.nodup_cons.mp (by simpa using hn)).2 hmem

theorem find_of_mem_nodup {s : Store} (hn : (s.jobs.map Job.id).Nodup)
    {j : Job} (hj : j ∈ s.jobs) : s.find j.id = some j :=
  find?_id_of_mem_nodup hn hj

theorem nodup_inj_id {s : Store} (hn : (s.jobs.map Job.id).Nodup)
    {j k : Job} (hj : j ∈ s.jobs) (hk : k ∈ s.jobs) (h : j.id = k.id) :
    j = k :=
  List.inj_on_of_nodup_map hn hj hk h

theorem get_next_prompt_spec {s : Store} {j : Job}
    (h : get_next_prompt s = some j) :
    j ∈ s.jobs ∧ j.status = Status.pending ∧
      ∀ k ∈ s.jobs, k.status = Status.pending → j.id ≤ k.id := by
  unfold get_next_prompt at h
  have hmem : j ∈ s.jobs.filter (fun k => k.status == Status.pending) :=
    List.argmin_mem h
  have hm := List.mem_filter.mp hmem
  refine ⟨hm.1, by simpa using hm.2, ?_⟩
  intro k hk hkp
  exact List.le_of_mem_argmin (List.mem_filter.mpr ⟨hk, by simp [hkp]⟩) h

theorem get_next_prompt_none_iff {s : Store} :
    get_next_prompt s = none ↔ ∀ k ∈ s.jobs, k.status ≠ Status.pending := by
  unfold get_next_prompt
  rw [List.argmin_eq_none, List.filter_eq_nil_iff]
  constructor
  · intro h k hk; simpa using h k hk
  · intro h k hk; simpa using h k hk

theorem output_path_ne_empty (pre : String) (i : Nat) :
    output_path pre i ≠ "" := by
  intro h
  have hl := congrArg String.length h
  rw [output_path] at hl
  simp only [String.length_append] at hl
  have h7 : ("output/").length = 7 := rfl
  have h0 : ("").length = 0 := rfl
  omega

theorem row_eq_of_find {s : Store} (hn : (s.jobs.map Job.id).Nodup)
    {i : Nat} {jr : Job} (hfind : s.find i = some jr)
    {j : Job} (hj : j ∈ s.jobs) (hid : j.id = i) : j = jr := by
  have h := find_of_mem_nodup hn hj
  rw [hid, hfind] at h
  exact (Option.some.inj h).symm

theorem storeInv_updateJob (s : Store) (i : Nat) (f : Job → Job)
    (hf : ∀ j, (f j).id = j.id)
    (hJ : ∀ j ∈ s.jobs, j.id = i → JobInv j → JobInv (f j))
    (hs : StoreInv s) : StoreInv (updateJob s i f) := by
  obtain ⟨h1, h2, h3⟩ := hs
  refine ⟨?_, ?_, ?_⟩
  · intro j' hj'
    rcases mem_updateJob.mp hj' with ⟨j, hj, rfl⟩
    by_cases h : j.id = i
    · simpa [h] using hJ j hj h (h1 j hj)
    · simpa [h] using h1 j hj
  · rw [updateJob_ids s i f hf]
    exact h2
  · intro j' hj'
    rcases mem_updateJob.mp hj' with ⟨j, hj, rfl⟩
    have hlt := h3 j hj
    have hid : (if j.id = i then f j else j).id = j.id := by
      by_cases h : j.id = i <;> simp [h, hf]
    simpa [updateJob, hid] using hlt

theorem storeInv_mark_in_progress {s : Store} (hs : StoreInv s) {i : Nat}
    (hrow : ∀ j ∈ s.jobs, j.id = i → j.status = Status.pending) :
    StoreInv (mark_in_progress i s) := by
  refine storeInv_updateJob s i _ (fun j => rfl) ?_ hs
  intro j hj hid hJ
  obtain ⟨_, b, c⟩ := hJ
  have hp := hrow j hj hid
  refine ⟨?_, ?_, ?_⟩
  · intro h
    rcases h with h | h <;> simp at h
  · intro _
    exact b (Or.inl hp)
  · constructor
    · intro h
      exact absurd (c.mp h) (by rw [hp]; intro h2; cases h2)
    · intro h
      simp at h
  -- the record update leaves completedAt untouched, so the final iff is
  -- between the old completedAt and the new in_progress status

theorem storeInv_mark_completed {s : Store} (hs : StoreInv s)
    (i : Nat) {fn : String} (hfn : fn ≠ "") :
    StoreInv (mark_completed i fn s) := by
  refine storeInv_updateJob s i _ (fun j => rfl) ?_ hs
  intro j _ _ _
  refine ⟨?_, ?_, ?_⟩
  · intro _
    exact ⟨by simp, by simp [hfn]⟩
  · intro h
    rcases h with h | h <;> simp at h
  · simp

theorem storeInv_mark_generated {s : Store} (hs : StoreInv s)
    {i : Nat} {fn : String} (hfn : fn ≠ "")
    (hrow : ∀ j ∈ s.jobs, j.id = i →
      j.status = Status.in_progress ∨ j.status = Status.generated) :
    StoreInv (mark_generated i fn s) := by
  refine storeInv_updateJob s i _ (fun j => rfl) ?_ hs
  intro j hj hid hJ
  obtain ⟨_, _, c⟩ := hJ
  have hnc : j.completedAt = false := by
    rcases hrow j hj hid with h | h <;>
      · cases hca : j.completedAt
        · rfl
        · exact absurd (c.mp hca) (by rw [h]; intro h2; cases h2)
  refine ⟨?_, ?_, ?_⟩
  · intro _
    exact ⟨by simp, by simp [hfn]⟩
  · intro h
    rcases h with h | h <;> simp at h
  · simp [hnc]

theorem storeInv_mark_failed {s : Store} (hs : StoreInv s) {i : Nat}
    (hrow : ∀ j ∈ s.jobs, j.id = i → j.status = Status.in_progress) :
    StoreInv (mark_failed i s) := by
  refine storeInv_updateJob s i _ (fun j => rfl) ?_ hs
  intro j hj hid hJ
  obtain ⟨_, b, c⟩ := hJ
  have hp := hrow j hj hid
  have hfn : j.filename = none := b (Or.inr hp)
  have hnc : j.completedAt = false := by
    cases hca : j.completedAt
    · rfl
    · exact absurd (c.mp hca) (by rw [hp]; intro h2; cases h2)
  refine ⟨?_, ?_, ?_⟩
  · intro h
    rcases h with h | h <;> simp at h
  · intro _
    exact hfn
  · simp [hnc]

/-! Run-level invariant for the threaded pipeline. -/

/-- The item the generator holds between mark_generated and the
queue.put call, as a list. -/
def enqList : ProdState → List QItem
  | ProdState.enqueuing it => [it]
  | _ => []

/-- All generated-but-not-yet-finalized items of a run state: queue
contents, the item being enqueued, and the item held by the uploader. -/
def allItems (r : RunState) : List QItem :=
  r.queue ++ enqList r.prod ++ r.cons.toList

/-- An in-flight item always points at a generated row whose filename
is exactly the image path travelling with the item. -/
def ItemInv (s : Store) (it : QItem) : Prop :=
  ∃ j, s.find it.prompt_id = some j ∧ j.status = Status.generated ∧
    j.filename = some it.image_path

/-- No job id occurs twice among in-flight items. -/
def itemsUniq (r : RunState) : Prop :=
  ∀ i : Nat, ((allItems r).map QItem.prompt_id).count i ≤ 1

/-- Inductive invariant of the threaded run. -/
def RunInv (r : RunState) : Prop :=
  StoreInv r.store ∧
  (∀ it ∈ allItems r, ItemInv r.store it) ∧
  itemsUniq r ∧
  (∀ i, r.prod = ProdState.working i →
    ∃ j, r.store.find i = some j ∧ j.status = Status.in_progress) ∧
  r.queue.length ≤ UPLOAD_QUEUE_SIZE

theorem mark_in_progress_find (i : Nat) (s : Store) (k : Nat) :
    (mark_in_progress i s).find k
      = (s.find k).map (fun j =>
          if j.id = i then { j with status := Status.in_progress } else j) := by
  unfold mark_in_progress
  apply updateJob_find
  intro j
  rfl

theorem mark_generated_find (i : Nat) (fn : String) (s : Store) (k : Nat) :
    (mark_generated i fn s).find k
      = (s.find k).map (fun j =>
          if j.id = i then
            { j with status := Status.generated, filename := some fn }
          else j) := by
  unfold mark_generated
  apply updateJob_find
  intro j
  rfl

theorem mark_completed_find (i : Nat) (fn : String) (s : Store) (k : Nat) :
    (mark_completed i fn s).find k
      = (s.find k).map (fun j =>
          if j.id = i then
            { j with status := Status.completed, filename := some fn,
                     completedAt := true }
          else j) := by
  unfold mark_completed
  apply updateJob_find
  intro j
  rfl

theorem mark_failed_find (i : Nat) (s : Store) (k : Nat) :
    (mark_failed i s).find k
      = (s.find k).map (fun j =>
          if j.id = i then { j with status := Status.pending } else j) := by
  unfold mark_failed
  apply updateJob_find
  intro j
  rfl

theorem itemInv_updateJob {s : Store} {it : QItem} (h : ItemInv s it)
    {i : Nat} {f : Job → Job} (hf : ∀ j, (f j).id = j.id)
    (hne : it.prompt_id ≠ i) : ItemInv (updateJob s i f) it := by
  obtain ⟨j, hfind, hst, hfn⟩ := h
  refine ⟨j, ?_, hst, hfn⟩
  rw [updateJob_find s i f hf, hfind]
  have hid : j.id = it.prompt_id := (find_eq_some_iff_aux hfind).2
  simp [hid, hne]

theorem itemInv_mark_in_progress {s : Store} {it : QItem} (h : ItemInv s it)
    {i : Nat} (hne : it.prompt_id ≠ i) :
    ItemInv (mark_in_progress i s) it := by
  unfold mark_in_progress
  exact itemInv_updateJob h (fun j => rfl) hne

theorem itemInv_mark_generated {s : Store} {it : QItem} (h : ItemInv s it)
    {i : Nat} {fn : String} (hne : it.prompt_id ≠ i) :
    ItemInv (mark_generated i fn s) it := by
  unfold mark_generated
  exact itemInv_updateJob h (fun j => rfl) hne

theorem itemInv_mark_completed {s : Store} {it : QItem} (h : ItemInv s it)
    {i : Nat} {fn : String} (hne : it.prompt_id ≠ i) :
    ItemInv (mark_completed i fn s) it := by
  unfold mark_completed
  exact itemInv_updateJob h (fun j => rfl) hne

theorem itemInv_mark_failed {s : Store} {it : QItem} (h : ItemInv s it)
    {i : Nat} (hne : it.prompt_id ≠ i) :
    ItemInv (mark_failed i s) it := by
  unfold mark_failed
  exact itemInv_updateJob h (fun j => rfl) hne

theorem itemInv_id_ne {s : Store} {it : QItem} (h : ItemInv s it)
    {i : Nat} {j : Job} (hfind : s.find i = some j)
    (hst : j.status ≠ Status.generated) : it.prompt_id ≠ i := by
  intro he
  obtain ⟨jt, hfind2, hst2, _⟩ := h
  rw [he, hfind] at hfind2
  have hj := Option.some.inj hfind2
  subst hj
  exact hst hst2

/-- The arity of the positional call performed by upload_to_arkiv never
binds against the declared signature, so the call raises TypeError
whatever the environment or the collaborator would have answered. -/
theorem upload_to_arkiv_eq_type_error (env : Env)
    (createEntity : Except PyError (String × String)) :
    upload_to_arkiv env createEntity = Except.error PyError.typeError := rfl

theorem uploader_process_eq (env : Env)
    (createEntity : Except PyError (String × String))
    (sizeBytes : Nat) (it : QItem) (s : Store) :
    uploader_process env createEntity sizeBytes it s
      = if MAX_IMAGE_SIZE_KB * 1024 < sizeBytes then
          mark_completed it.prompt_id it.image_path s
        else mark_generated it.prompt_id it.image_path s := by
  unfold uploader_process
  rw [upload_to_arkiv_eq_type_error]

theorem count_zero_of_ne {l : List QItem} {i : Nat}
    (hl : ∀ it ∈ l, it.prompt_id ≠ i) :
    (l.map QItem.prompt_id).count i = 0 := by
  rw [List.count_eq_zero]
  intro hmem
  rcases List.mem_map.mp hmem with ⟨it, hit, hpid⟩
  exact hl it hit hpid

theorem runInv_step {pre : String} {r r' : RunState}
    (h : Step pre r r') (hinv : RunInv r) : RunInv r' := by
  obtain ⟨hs, hitems, huniq, hwork, hqb⟩ := hinv
  have hnd : (r.store.jobs.map Job.id).Nodup := hs.2.1
  cases h with
  | claim j hp hget =>
    obtain ⟨hmem, hpend, _⟩ := get_next_prompt_spec hget
    have hfind : r.store.find j.id = some j := find_of_mem_nodup hnd hmem
    have hrow : ∀ k ∈ r.store.jobs, k.id = j.id → k.status = Status.pending := by
      intro k hk hkid
      rw [row_eq_of_find hnd hfind hk hkid]
      exact hpend
    have hAll : allItems { r with
        store := mark_in_progress j.id r.store
        prod := ProdState.working j.id } = allItems r := by
      simp [allItems, enqList, hp]
    refine ⟨storeInv_mark_in_progress hs hrow, ?_, ?_, ?_, hqb⟩
    · intro it hit
      rw [hAll] at hit
      exact itemInv_mark_in_progress (hitems it hit)
        (itemInv_id_ne (hitems it hit) hfind (by simp [hpend]))
    · intro k
      show ((allItems _).map QItem.prompt_id).count k ≤ 1
      rw [hAll]
      exact huniq k
    · intro i hi
      replace hi : ProdState.working j.id = ProdState.working i := hi
      injection hi with hji
      subst hji
      refine ⟨{ j with status := Status.in_progress }, ?_, rfl⟩
      show (mark_in_progress j.id r.store).find j.id = _
      rw [mark_in_progress_find, hfind]
      simp
  | claimNone hp _ =>
    have hAll : allItems { r with prod := ProdState.stopped } = allItems r := by
      simp [allItems, enqList, hp]
    refine ⟨hs, ?_, ?_, ?_, hqb⟩
    · intro it hit
      rw [hAll] at hit
      exact hitems it hit
    · intro k
      show ((allItems _).map QItem.prompt_id).count k ≤ 1
      rw [hAll]
      exact huniq k
    · intro i hi
      replace hi : ProdState.stopped = ProdState.working i := hi
      cases hi
  | genSuccess i hp =>
    obtain ⟨jw, hfindw, hstw⟩ := hwork i hp
    have hjwid : jw.id = i := (find_eq_some_iff_aux hfindw).2
    have hrow : ∀ k ∈ r.store.jobs, k.id = i →
        k.status = Status.in_progress ∨ k.status = Status.generated := by
      intro k hk hkid
      rw [row_eq_of_find hnd hfindw hk hkid]
      exact Or.inl hstw
    have hne : ∀ it ∈ allItems r, it.prompt_id ≠ i := fun it hit =>
      itemInv_id_ne (hitems it hit) hfindw (by simp [hstw])
    have hpne := output_path_ne_empty pre i
    refine ⟨storeInv_mark_generated hs hpne hrow, ?_, ?_, ?_, hqb⟩
    · intro it hit
      replace hit : it ∈ r.queue ++ [(⟨i, output_path pre i⟩ : QItem)]
          ++ r.cons.toList := hit
      rcases List.mem_append.mp hit with h1 | hcons
      · rcases List.mem_append.mp h1 with hq | hnew
        · have hold : it ∈ allItems r := by
            simp [allItems, enqList, hp, hq]
          exact itemInv_mark_generated (hitems it hold) (hne it hold)
        · rcases List.mem_singleton.mp hnew with rfl
          refine ⟨{ jw with
            status := Status.generated
            filename := some (output_path pre i) }, ?_, rfl, rfl⟩
          show (mark_generated i (output_path pre i) r.store).find i = _
          rw [mark_generated_find, hfindw]
          simp [hjwid]
      · have hold : it ∈ allItems r := by
          simp [allItems, enqList, hp, hcons]
        exact itemInv_mark_generated (hitems it hold) (hne it hold)
    · intro k
      have hu := huniq k
      have hzq : ((r.queue.map QItem.prompt_id).count i) = 0 :=
        count_zero_of_ne (fun it hit => hne it (by simp [allItems, enqList, hp, hit]))
      have hzc : ((r.cons.toList.map QItem.prompt_id).count i) = 0 :=
        count_zero_of_ne (fun it hit => hne it (by simp [allItems, enqList, hp, hit]))
      show (((r.queue ++ [(⟨i, output_path pre i⟩ : QItem)] ++ r.cons.toList)).map
        QItem.prompt_id).count k ≤ 1
      simp only [allItems, enqList, hp, List.map_append, List.count_append,
        List.map_cons, List.map_nil, List.count_cons, List.count_nil,
        beq_iff_eq] at hu ⊢
      by_cases hk : i = k
      · subst hk
        rw [if_pos rfl]
        omega
      · simp only [if_neg hk]
        omega
    · intro i2 hi2
      replace hi2 : ProdState.enqueuing ⟨i, output_path pre i⟩
          = ProdState.working i2 := hi2
      cases hi2
  | genSuccessNoUpload i hp =>
    obtain ⟨jw, hfindw, hstw⟩ := hwork i hp
    have hne : ∀ it ∈ allItems r, it.prompt_id ≠ i := fun it hit =>
      itemInv_id_ne (hitems it hit) hfindw (by simp [hstw])
    have hpne := output_path_ne_empty pre i
    have hAll : allItems { r with
        store := mark_completed i (output_path pre i) r.store
        prod := ProdState.idle } = allItems r := by
      simp [allItems, enqList, hp]
    refine ⟨storeInv_mark_completed hs i hpne, ?_, ?_, ?_, hqb⟩
    · intro it hit
      rw [hAll] at hit
      exact itemInv_mark_completed (hitems it hit) (hne it hit)
    · intro k
      show ((allItems _).map QItem.prompt_id).count k ≤ 1
      rw [hAll]
      exact huniq k
    · intro i2 hi2
      replace hi2 : ProdState.idle = ProdState.working i2 := hi2
      cases hi2
  | genFail i hp =>
    obtain ⟨jw, hfindw, hstw⟩ := hwork i hp
    have hrow : ∀ k ∈ r.store.jobs, k.id = i → k.status = Status.in_progress := by
      intro k hk hkid
      rw [row_eq_of_find hnd hfindw hk hkid]
      exact hstw
    have hne : ∀ it ∈ allItems r, it.prompt_id ≠ i := fun it hit =>
      itemInv_id_ne (hitems it hit) hfindw (by simp [hstw])
    have hAll : allItems { r with
        store := mark_failed i r.store
        prod := ProdState.idle } = allItems r := by
      simp [allItems, enqList, hp]
    refine ⟨storeInv_mark_failed hs hrow, ?_, ?_, ?_, hqb⟩
    · intro it hit
      rw [hAll] at hit
      exact itemInv_mark_failed (hitems it hit) (hne it hit)
    · intro k
      show ((allItems _).map QItem.prompt_id).count k ≤ 1
      rw [hAll]
      exact huniq k
    · intro i2 hi2
      replace hi2 : ProdState.idle = ProdState.working i2 := hi2
      cases hi2
  | enqueue it hpe hlen =>
    have hAll : allItems { r with
        queue := r.queue ++ [it]
        prod := ProdState.idle } = allItems r := by
      simp [allItems, enqList, hpe]
    refine ⟨hs, ?_, ?_, ?_, ?_⟩
    · intro it2 hit2
      rw [hAll] at hit2
      exact hitems it2 hit2
    · intro k
      show ((allItems _).map QItem.prompt_id).count k ≤ 1
      rw [hAll]
      exact huniq k
    · intro i2 hi2
      replace hi2 : ProdState.idle = ProdState.working i2 := hi2
      cases hi2
    · show (r.queue ++ [it]).length ≤ UPLOAD_QUEUE_SIZE
      simp only [List.length_append, List.length_singleton]
      omega
  | dequeue it rest hcnone hq =>
    have hmm : ∀ it2, it2 ∈ allItems { r with queue := rest, cons := some it }
        ↔ it2 ∈ allItems r := by
      intro it2
      simp only [allItems, hcnone, hq, Option.toList, List.mem_append,
        List.mem_cons, List.mem_singleton, List.not_mem_nil, or_false]
      tauto
    refine ⟨hs, ?_, ?_, ?_, ?_⟩
    · intro it2 hit2
      exact hitems it2 ((hmm it2).mp hit2)
    · intro k
      have hu := huniq k
      show (((rest ++ enqList r.prod ++ [it])).map QItem.prompt_id).count k ≤ 1
      simp only [allItems, hcnone, hq, Option.toList, List.append_nil,
        List.map_append, List.map_cons, List.map_nil, List.count_append,
        List.count_cons, List.count_nil] at hu ⊢
      omega
    · intro i2 hi2
      replace hi2 : r.prod = ProdState.working i2 := hi2
      exact hwork i2 hi2
    · show rest.length ≤ UPLOAD_QUEUE_SIZE
      have := hqb
      rw [hq] at this
      simp only [List.length_cons] at this
      omega
  | consProcess it env ce sz hc =>
    have hitmem : it ∈ allItems r := by
      simp [allItems, hc, Option.toList]
    obtain ⟨jt, hfindt, hstt, hfnt⟩ := hitems it hitmem
    have hjtmem : jt ∈ r.store.jobs := (find_eq_some_iff_aux hfindt).1
    have hpne : it.image_path ≠ "" := by
      have hJ := (hs.1 jt hjtmem).1 (Or.inl hstt)
      intro he
      rw [he] at hfnt
      exact hJ.2 hfnt
    have hrow : ∀ k ∈ r.store.jobs, k.id = it.prompt_id →
        k.status = Status.in_progress ∨ k.status = Status.generated := by
      intro k hk hkid
      rw [row_eq_of_find hnd hfindt hk hkid]
      exact Or.inr hstt
    have hne : ∀ it2 ∈ r.queue ++ enqList r.prod, it2.prompt_id ≠ it.prompt_id := by
      intro it2 hit2 heq
      have hu := huniq it.prompt_id
      have h1 : it.prompt_id ∈ (r.queue ++ enqList r.prod).map QItem.prompt_id :=
        List.mem_map.mpr ⟨it2, hit2, heq⟩
      have h2 := List.count_pos_iff.mpr h1
      simp only [allItems, hc, Option.toList, List.map_append, List.count_append,
        List.map_cons, List.map_nil, List.count_cons, List.count_nil,
        beq_self_eq_true, eq_self_iff_true, if_true] at hu h2
      omega
    have hwne : ∀ i2 jw, r.store.find i2 = some jw →
        jw.status = Status.in_progress → i2 ≠ it.prompt_id := by
      intro i2 jw hfw hsw heq
      rw [heq, hfindt] at hfw
      have hje := Option.some.inj hfw
      subst hje
      rw [hstt] at hsw
      cases hsw
    have hstep := uploader_process_eq env ce sz it r.store
    by_cases hsz : MAX_IMAGE_SIZE_KB * 1024 < sz
    · rw [if_pos hsz] at hstep
      rw [hstep]
      refine ⟨storeInv_mark_completed hs it.prompt_id hpne, ?_, ?_, ?_, hqb⟩
      · intro it2 hit2
        replace hit2 : it2 ∈ r.queue ++ enqList r.prod ++ ([] : List QItem) := hit2
        rw [List.append_nil] at hit2
        have hold : it2 ∈ allItems r := by
          simp only [allItems, hc, Option.toList]
          exact List.mem_append.mpr (Or.inl hit2)
        exact itemInv_mark_completed (hitems it2 hold) (hne it2 hit2)
      · intro k
        have hu := huniq k
        show (((r.queue ++ enqList r.prod ++ ([] : List QItem))).map
          QItem.prompt_id).count k ≤ 1
        simp only [allItems, hc, Option.toList, List.map_append, List.count_append,
          List.map_cons, List.map_nil, List.count_cons, List.count_nil] at hu ⊢
        omega
      · intro i2 hi2
        replace hi2 : r.prod = ProdState.working i2 := hi2
        obtain ⟨jw, hfw, hsw⟩ := hwork i2 hi2
        refine ⟨jw, ?_, hsw⟩
        show (mark_completed it.prompt_id it.image_path r.store).find i2 = some jw
        rw [mark_completed_find, hfw]
        have : jw.id = i2 := (find_eq_some_iff_aux hfw).2
        simp [this, hwne i2 jw hfw hsw]
    · rw [if_neg hsz] at hstep
      rw [hstep]
      refine ⟨storeInv_mark_generated hs hpne hrow, ?_, ?_, ?_, hqb⟩
      · intro it2 hit2
        replace hit2 : it2 ∈ r.queue ++ enqList r.prod ++ ([] : List QItem) := hit2
        rw [List.append_nil] at hit2
        have hold : it2 ∈ allItems r := by
          simp only [allItems, hc, Option.toList]
          exact List.mem_append.mpr (Or.inl hit2)
        exact itemInv_mark_generated (hitems it2 hold) (hne it2 hit2)
      · intro k
        have hu := huniq k
        show (((r.queue ++ enqList r.prod ++ ([] : List QItem))).map
          QItem.prompt_id).count k ≤ 1
        simp only [allItems, hc, Option.toList, List.map_append, List.count_append,
          List.map_cons, List.map_nil, List.count_cons, List.count_nil] at hu ⊢
        omega
      · intro i2 hi2
        replace hi2 : r.prod = ProdState.working i2 := hi2
        obtain ⟨jw, hfw, hsw⟩ := hwork i2 hi2
        refine ⟨jw, ?_, hsw⟩
        show (mark_generated it.prompt_id it.image_path r.store).find i2 = some jw
        rw [mark_generated_find, hfw]
        have : jw.id = i2 := (find_eq_some_iff_aux hfw).2
        simp [this, hwne i2 jw hfw hsw]

theorem runInv_init {s : Store} (hs : StoreInv s) : RunInv (initRun s) := by
  refine ⟨hs, ?_, ?_, ?_, ?_⟩
  · intro it hit
    simp [initRun, allItems, enqList] at hit
  · intro k
    show ((allItems (initRun s)).map QItem.prompt_id).count k ≤ 1
    simp [initRun, allItems, enqList]
  · intro i hi
    replace hi : ProdState.idle = ProdState.working i := hi
    cases hi
  · show ([] : List QItem).length ≤ UPLOAD_QUEUE_SIZE
    simp [UPLOAD_QUEUE_SIZE]

theorem runInv_reach {pre : String} {r0 r : RunState}
    (h : RunReach pre r0 r) (h0 : RunInv r0) : RunInv r := by
  induction h with
  | refl => exact h0
  | step _ hstep ih => exact runInv_step hstep ih

theorem storeInv_insert_or_ignore {s : Store} (hs : StoreInv s) (p : String) :
    StoreInv (insert_or_ignore s p) := by
  obtain ⟨h1, h2, h3⟩ := hs
  unfold insert_or_ignore
  by_cases hc : s.jobs.any (fun j => j.prompt == p) = true
  · rw [if_pos hc]
    exact ⟨h1, h2, h3⟩
  · rw [if_neg hc]
    refine ⟨?_, ?_, ?_⟩
    · intro j hj
      rcases List.mem_append.mp hj with hold | hnew
      · exact h1 j hold
      · rcases List.mem_singleton.mp hnew with rfl
        refine ⟨?_, ?_, ?_⟩
        · intro h
          rcases h with h | h <;> simp at h
        · intro _
          rfl
        · simp
    · rw [List.map_append, List.nodup_append]
      refine ⟨h2, by simp, ?_⟩
      intro a ha hb
      simp only [List.map_cons, List.map_nil, List.mem_singleton] at hb
      subst hb
      rcases List.mem_map.mp ha with ⟨j, hj, hjid⟩
      have := h3 j hj
      omega
    · intro j hj
      rcases List.mem_append.mp hj with hold | hnew
      · have := h3 j hold
        show j.id < s.nextId + 1
        omega
      · rcases List.mem_singleton.mp hnew with rfl
        show s.nextId < s.nextId + 1
        omega

theorem storeInv_seed_fold {s : Store} (hs : StoreInv s) (ps : List String) :
    StoreInv (ps.foldl insert_or_ignore s) := by
  induction ps generalizing s with
  | nil => exact hs
  | cons p t ih => exact ih (storeInv_insert_or_ignore hs p)

theorem storeInv_seed {s : Store} (hs : StoreInv s) (ps : List String) :
    StoreInv (seed_database ps s).1 :=
  storeInv_seed_fold hs ps

theorem reset_interrupted_jobs (s : Store) :
    (reset_interrupted s).1.jobs = s.jobs.map (fun j =>
      if j.status = Status.in_progress then { j with status := Status.pending }
      else j) := rfl

theorem reset_interrupted_nextId (s : Store) :
    (reset_interrupted s).1.nextId = s.nextId := rfl

theorem storeInv_reset {s : Store} (hs : StoreInv s) :
    StoreInv (reset_interrupted s).1 := by
  obtain ⟨h1, h2, h3⟩ := hs
  refine ⟨?_, ?_, ?_⟩
  · intro j' hj'
    rw [reset_interrupted_jobs] at hj'
    obtain ⟨j, hj, rfl⟩ := List.mem_map.mp hj'
    obtain ⟨a, b, c⟩ := h1 j hj
    by_cases hst : j.status = Status.in_progress
    · rw [if_pos hst]
      have hfn := b (Or.inr hst)
      have hnc : j.completedAt = false := by
        cases hca : j.completedAt
        · rfl
        · exact absurd (c.mp hca) (by rw [hst]; intro h; cases h)
      refine ⟨?_, ?_, ?_⟩
      · intro h
        rcases h with h | h <;> simp at h
      · intro _
        exact hfn
      · simp [hnc]
    · rw [if_neg hst]
      exact ⟨a, b, c⟩
  · have hids : (reset_interrupted s).1.jobs.map Job.id = s.jobs.map Job.id := by
      rw [reset_interrupted_jobs, List.map_map]
      apply List.map_congr_left
      intro j _
      by_cases hst : j.status = Status.in_progress <;> simp [hst]
    rw [hids]
    exact h2
  · intro j' hj'
    rw [reset_interrupted_jobs] at hj'
    obtain ⟨j, hj, rfl⟩ := List.mem_map.mp hj'
    have := h3 j hj
    rw [reset_interrupted_nextId]
    by_cases hst : j.status = Status.in_progress <;> simp [hst, this]

theorem storeInv_empty : StoreInv emptyStore := by
  refine ⟨?_, ?_, ?_⟩ <;> simp [emptyStore]

/-- Every store state reachable by any sequence of seedings, startup
recoveries and (possibly interrupted) threaded runs satisfies the table
invariant. -/
theorem reachStore_storeInv {s : Store} (h : ReachStore s) : StoreInv s := by
  induction h with
  | empty => exact storeInv_empty
  | seed ps s _ ih => exact storeInv_seed ih ps
  | reset s _ ih => exact storeInv_reset ih
  | run pre s r _ hrun ih => exact (runInv_reach hrun (runInv_init ih)).1

/-! Helper lemmas for the recovery and seeding claims. -/

theorem countStatus_reset (s : Store) (st : Status)
    (h1 : st ≠ Status.in_progress) (h2 : st ≠ Status.pending) :
    countStatus (reset_interrupted s).1 st = countStatus s st := by
  unfold countStatus
  rw [reset_interrupted_jobs, ← List.countP_eq_length_filter,
    ← List.countP_eq_length_filter, List.countP_map]
  apply List.countP_congr
  intro j _
  by_cases hst : j.status = Status.in_progress
  · constructor
    · intro hpg
      exfalso
      have hpd : Status.pending = st := by
        simpa [Function.comp, hst] using hpg
      exact h2 hpd.symm
    · intro hp
      exfalso
      have hip : j.status = st := by simpa using hp
      rw [hst] at hip
      exact h1 hip.symm
  · simp [Function.comp, hst]

/-- Whether a row with the given prompt exists (the UNIQUE check). -/
def hasPrompt (s : Store) (p : String) : Bool :=
  s.jobs.any (fun j => j.prompt == p)

theorem hasPrompt_insert_self (s : Store) (p : String) :
    hasPrompt (insert_or_ignore s p) p = true := by
  unfold hasPrompt insert_or_ignore
  by_cases hc : s.jobs.any (fun j => j.prompt == p) = true
  · rw [if_pos hc]
    exact hc
  · rw [if_neg hc]
    simp

theorem hasPrompt_insert_mono {s : Store} {q : String}
    (h : hasPrompt s q = true) (p : String) :
    hasPrompt (insert_or_ignore s p) q = true := by
  unfold hasPrompt insert_or_ignore at *
  by_cases hc : s.jobs.any (fun j => j.prompt == p) = true
  · rw [if_pos hc]
    exact h
  · rw [if_neg hc]
    simp only [List.any_append, Bool.or_eq_true]
    exact Or.inl h

theorem hasPrompt_fold_mono {q : String} (ps : List String) {s : Store}
    (h : hasPrompt s q = true) :
    hasPrompt (ps.foldl insert_or_ignore s) q = true := by
  induction ps generalizing s with
  | nil => exact h
  | cons p t ih => exact ih (hasPrompt_insert_mono h p)

theorem hasPrompt_fold_all (ps : List String) (s : Store) :
    ∀ q ∈ ps, hasPrompt (ps.foldl insert_or_ignore s) q = true := by
  induction ps generalizing s with
  | nil =>
    intro q hq
    cases hq
  | cons p t ih =>
    intro q hq
    rcases List.mem_cons.mp hq with rfl | hmem
    · exact hasPrompt_fold_mono t (hasPrompt_insert_self s q)
    · exact ih (insert_or_ignore s p) q hmem

theorem insert_or_ignore_noop {s : Store} {p : String}
    (h : hasPrompt s p = true) : insert_or_ignore s p = s := by
  unfold hasPrompt at h
  unfold insert_or_ignore
  rw [if_pos h]

theorem fold_insert_noop {ps : List String} {s : Store}
    (h : ∀ p ∈ ps, hasPrompt s p = true) :
    ps.foldl insert_or_ignore s = s := by
  induction ps with
  | nil => rfl
  | cons p t ih =>
    show t.foldl insert_or_ignore (insert_or_ignore s p) = s
    rw [insert_or_ignore_noop (h p (List.mem_cons_self p t))]
    exact ih (fun q hq => h q (List.mem_cons_of_mem p hq))

theorem mem_insert_or_ignore {s : Store} {p : String} {j : Job}
    (h : j ∈ s.jobs) : j ∈ (insert_or_ignore s p).jobs := by
  unfold insert_or_ignore
  by_cases hc : s.jobs.any (fun j => j.prompt == p) = true
  · rw [if_pos hc]
    exact h
  · rw [if_neg hc]
    exact List.mem_append_left _ h

theorem mem_fold_insert {ps : List String} {s : Store} {j : Job}
    (h : j ∈ s.jobs) : j ∈ (ps.foldl insert_or_ignore s).jobs := by
  induction ps generalizing s with
  | nil => exact h
  | cons p t ih => exact ih (mem_insert_or_ignore h)

theorem mem_fold_insert_inv {ps : List String} {s : Store} {j : Job}
    (h : j ∈ (ps.foldl insert_or_ignore s).jobs) :
    j ∈ s.jobs ∨ (j.prompt ∈ ps ∧ j.status = Status.pending ∧
      j.filename = none ∧ j.completedAt = false) := by
  induction ps generalizing s with
  | nil => exact Or.inl h
  | cons p t ih =>
    rcases ih (s := insert_or_ignore s p) h with h1 | h2
    · unfold insert_or_ignore at h1
      by_cases hc : s.jobs.any (fun j => j.prompt == p) = true
      · rw [if_pos hc] at h1
        exact Or.inl h1
      · rw [if_neg hc] at h1
        rcases List.mem_append.mp h1 with hold | hnew
        · exact Or.inl hold
        · rcases List.mem_singleton.mp hnew with rfl
          exact Or.inr ⟨List.mem_cons_self _ _, rfl, rfl, rfl⟩
    · exact Or.inr ⟨List.mem_cons_of_mem p h2.1, h2.2⟩

/-! Concrete stores and run states used by the closed instances. -/

def exJob1 : Job := ⟨1, "a cat", Status.pending, none, false⟩

def exStore1 : Store := ⟨[exJob1], 2⟩

def exPath1 : String := output_path "cat" 1

def exItem1 : QItem := ⟨1, exPath1⟩

def exRunCons : RunState :=
  ⟨mark_generated 1 exPath1 (mark_in_progress 1 exStore1), [],
    ProdState.idle, some exItem1⟩

def exRunEnq : RunState :=
  ⟨mark_generated 1 exPath1 (mark_in_progress 1 exStore1), [],
    ProdState.enqueuing exItem1, none⟩

def exRunEnqDone : RunState :=
  ⟨mark_generated 1 exPath1 (mark_in_progress 1 exStore1), [exItem1],
    ProdState.idle, none⟩

def exEnvOk : Env := ⟨some "k", some "u"⟩

def envMissing : Env := ⟨none, none⟩

def exCE : Except PyError (String × String) := Except.ok ("entity", "tx")

def exGenJob : Job := ⟨1, "a cat", Status.generated, some "output/cat_1.png", false⟩

def exGenStore : Store := ⟨[exGenJob], 2⟩

def exRunGenStopped : RunState := ⟨exGenStore, [], ProdState.stopped, none⟩

def exStoreC5 : Store :=
  ⟨[⟨1, "a", Status.in_progress, none, false⟩,
    ⟨2, "b", Status.generated, some "f.png", false⟩], 3⟩

/-! Claim C1. -/

/-- C1 counterexample: the operation the producer uses to obtain the
next job is get_next_prompt, a pure SELECT of type Store to Option Job
that performs no status transition.  On the store holding the single
pending job exJob1 it returns that job still in status pending, and the
row in the (untouched) store is still pending — refuting that the claim
operation transitions the returned job to in_progress atomically with
the selection, never leaving it pending. -/
theorem claim_selection_not_atomic_cex :
    get_next_prompt exStore1 = some exJob1 ∧
    (get_next_prompt exStore1).map Job.status = some Status.pending ∧
    exStore1.find 1 = some exJob1 ∧ exJob1.status = Status.pending := by
  refine ⟨by decide, by decide, by decide, rfl⟩

/-- C1 (amended): get_next_prompt selects the lowest-id pending job and
returns it without mutating any row, returning none exactly when no
pending job exists; the producer then transitions the job with the
separate mark_in_progress update, after which the row is in_progress.
Selection and transition are two distinct store operations, not one
atomic claim. -/
theorem claim_selection_two_step (s : Store)
    (hn : (s.jobs.map Job.id).Nodup) :
    (get_next_prompt s = none ↔ ∀ k ∈ s.jobs, k.status ≠ Status.pending) ∧
    (∀ j, get_next_prompt s = some j →
      j ∈ s.jobs ∧ j.status = Status.pending ∧
      (∀ k ∈ s.jobs, k.status = Status.pending → j.id ≤ k.id) ∧
      (mark_in_progress j.id s).find j.id
        = some { j with status := Status.in_progress }) := by
  refine ⟨get_next_prompt_none_iff, ?_⟩
  intro j hj
  obtain ⟨hmem, hpend, hmin⟩ := get_next_prompt_spec hj
  refine ⟨hmem, hpend, hmin, ?_⟩
  rw [mark_in_progress_find, find_of_mem_nodup hn hmem]
  simp

/-- Closed instance of claim_selection_two_step on the concrete
single-job store. -/
theorem claim_selection_two_step_witness :
    (exStore1.jobs.map Job.id).Nodup ∧
    ((get_next_prompt exStore1 = none ↔
        ∀ k ∈ exStore1.jobs, k.status ≠ Status.pending) ∧
      (∀ j, get_next_prompt exStore1 = some j →
        j ∈ exStore1.jobs ∧ j.status = Status.pending ∧
        (∀ k ∈ exStore1.jobs, k.status = Status.pending → j.id ≤ k.id) ∧
        (mark_in_progress j.id exStore1).find j.id
          = some { j with status := Status.in_progress })) :=
  ⟨by decide, claim_selection_two_step exStore1 (by decide)⟩

/-! Claim C2. -/

/-- C2: the call site in upload_to_arkiv passes five positional
arguments to the four-parameter upload_image_to_arkiv, so every
invocation of the upload path raises TypeError before any upload is
attempted — whatever the environment and whatever the collaborator
would have answered — and consequently the mark_completed branch after
an upload is unreachable: every item within the size threshold is
requeued to generated instead. -/
theorem upload_call_arity_type_error (env : Env)
    (ce : Except PyError (String × String)) (sz : Nat) (it : QItem)
    (s : Store) (hsz : sz ≤ MAX_IMAGE_SIZE_KB * 1024) :
    posCallOk upload_image_to_arkiv_sig upload_to_arkiv_nargs = false ∧
    upload_to_arkiv env ce = Except.error PyError.typeError ∧
    uploader_process env ce sz it s
      = mark_generated it.prompt_id it.image_path s := by
  refine ⟨rfl, rfl, ?_⟩
  rw [uploader_process_eq, if_neg (by omega)]

/-- Closed instance of upload_call_arity_type_error. -/
theorem upload_call_arity_type_error_witness :
    (0 : Nat) ≤ MAX_IMAGE_SIZE_KB * 1024 ∧
    (posCallOk upload_image_to_arkiv_sig upload_to_arkiv_nargs = false ∧
      upload_to_arkiv exEnvOk exCE = Except.error PyError.typeError ∧
      uploader_process exEnvOk exCE 0 exItem1 exStore1
        = mark_generated exItem1.prompt_id exItem1.image_path exStore1) :=
  ⟨by decide,
    upload_call_arity_type_error exEnvOk exCE 0 exItem1 exStore1 (by decide)⟩

/-! Claim C7. -/

/-- C7 counterexample: with PRIVATE_KEY and RPC_URL both missing, the
portion of run_threaded_generator that runs before any worker thread
starts completes without raising — none of its statements
(seed_database, reset_interrupted, get_stats, thread start) reads the
credentials.  The only credential check lives in get_arkiv_client,
reached solely from upload_image_to_arkiv inside the per-job upload
path, after the workers have started — refuting that the failure is
raised before any worker starts. -/
theorem startup_missing_credentials_cex :
    pre_worker_phase envMissing ["a cat"] emptyStore
      = Except.ok ((reset_interrupted (seed_database ["a cat"] emptyStore).1).1) ∧
    get_arkiv_client envMissing
      = Except.error (PyError.runtimeError "PRIVATE_KEY not found in .env file") :=
  ⟨rfl, rfl⟩

/-- C7 (amended): missing credentials are not detected at startup: the
pre-worker phase always succeeds regardless of the environment; the
check inside get_arkiv_client raises RuntimeError, but it sits in the
per-job upload path whose exceptions the uploader catches, requeueing
the item to generated — the run does not abort. -/
theorem missing_credentials_deferred_per_job (env : Env)
    (ps : List String) (s s2 : Store)
    (ce : Except PyError (String × String)) (sz : Nat) (it : QItem)
    (hmiss : pyFalsy env.privateKey = true)
    (hsz : sz ≤ MAX_IMAGE_SIZE_KB * 1024) :
    pre_worker_phase env ps s
      = Except.ok ((reset_interrupted (seed_database ps s).1).1) ∧
    get_arkiv_client env
      = Except.error (PyError.runtimeError "PRIVATE_KEY not found in .env file") ∧
    uploader_process env ce sz it s2
      = mark_generated it.prompt_id it.image_path s2 := by
  refine ⟨rfl, ?_, ?_⟩
  · unfold get_arkiv_client
    rw [if_pos hmiss]
  · rw [uploader_process_eq, if_neg (by omega)]

/-- Closed instance of missing_credentials_deferred_per_job. -/
theorem missing_credentials_deferred_per_job_witness :
    pyFalsy envMissing.privateKey = true ∧
    (0 : Nat) ≤ MAX_IMAGE_SIZE_KB * 1024 ∧
    (pre_worker_phase envMissing ["a cat"] emptyStore
        = Except.ok ((reset_interrupted
            (seed_database ["a cat"] emptyStore).1).1) ∧
      get_arkiv_client envMissing
        = Except.error
            (PyError.runtimeError "PRIVATE_KEY not found in .env file") ∧
      uploader_process envMissing exCE 0 exItem1 exStore1
        = mark_generated exItem1.prompt_id exItem1.image_path exStore1) :=
  ⟨rfl, by decide,
    missing_credentials_deferred_per_job envMissing ["a cat"] emptyStore
      exStore1 exCE 0 exItem1 rfl (by decide)⟩

/-! Claim C3. -/

/-- A job stuck in generated during a run: still generated with its
original filename, never among the in-flight queue items, and never the
generator current job. -/
def GenStuck (z : Nat) (fz : String) (r : RunState) : Prop :=
  (∃ j, r.store.find z = some j ∧ j.status = Status.generated ∧
    j.filename = some fz) ∧
  (∀ it ∈ allItems r, it.prompt_id ≠ z) ∧
  (∀ i, r.prod = ProdState.working i → i ≠ z)

theorem genStuck_step {pre : String} {r r' : RunState} {z : Nat} {fz : String}
    (h : Step pre r r') (hr : RunInv r) (hg : GenStuck z fz r) :
    GenStuck z fz r' := by
  obtain ⟨⟨jz, hfz, hsz, hfnz⟩, hni, hnw⟩ := hg
  have hnd : (r.store.jobs.map Job.id).Nodup := hr.1.2.1
  cases h with
  | claim j hp hget =>
    obtain ⟨hmem, hpend, _⟩ := get_next_prompt_spec hget
    have hne : j.id ≠ z := by
      intro he
      have h1 : r.store.find j.id = some j := find_of_mem_nodup hnd hmem
      rw [he, hfz] at h1
      have h2 := Option.some.inj h1
      rw [h2] at hsz
      rw [hpend] at hsz
      cases hsz
    refine ⟨⟨jz, ?_, hsz, hfnz⟩, ?_, ?_⟩
    · show (mark_in_progress j.id r.store).find z = some jz
      rw [mark_in_progress_find, hfz]
      have hzid : jz.id = z := (find_eq_some_iff_aux hfz).2
      simp only [Option.map_some', hzid]
      rw [if_neg (fun he => hne he.symm)]
    · intro it hit
      replace hit : it ∈ allItems r := by
        have hAll : allItems { r with
            store := mark_in_progress j.id r.store
            prod := ProdState.working j.id } = allItems r := by
          simp [allItems, enqList, hp]
        rw [hAll] at hit
        exact hit
      exact hni it hit
    · intro i hi
      replace hi : ProdState.working j.id = ProdState.working i := hi
      injection hi with hji
      subst hji
      exact hne
  | claimNone hp _ =>
    refine ⟨⟨jz, hfz, hsz, hfnz⟩, ?_, ?_⟩
    · intro it hit
      replace hit : it ∈ allItems r := by
        have hAll : allItems { r with prod := ProdState.stopped }
            = allItems r := by
          simp [allItems, enqList, hp]
        rw [hAll] at hit
        exact hit
      exact hni it hit
    · intro i hi
      replace hi : ProdState.stopped = ProdState.working i := hi
      cases hi
  | genSuccess i hp =>
    have hne : i ≠ z := hnw i hp
    refine ⟨⟨jz, ?_, hsz, hfnz⟩, ?_, ?_⟩
    · show (mark_generated i (output_path pre i) r.store).find z = some jz
      rw [mark_generated_find, hfz]
      have hzid : jz.id = z := (find_eq_some_iff_aux hfz).2
      simp only [Option.map_some', hzid]
      rw [if_neg (fun he => hne he.symm)]
    · intro it hit
      replace hit : it ∈ r.queue ++ [(⟨i, output_path pre i⟩ : QItem)]
          ++ r.cons.toList := hit
      rcases List.mem_append.mp hit with h1 | hcons
      · rcases List.mem_append.mp h1 with hq | hnew
        · exact hni it (by simp [allItems, enqList, hp, hq])
        · rcases List.mem_singleton.mp hnew with rfl
          exact hne
      · exact hni it (by simp [allItems, enqList, hp, hcons])
    · intro i2 hi2
      replace hi2 : ProdState.enqueuing ⟨i, output_path pre i⟩
          = ProdState.working i2 := hi2
      cases hi2
  | genSuccessNoUpload i hp =>
    have hne : i ≠ z := hnw i hp
    refine ⟨⟨jz, ?_, hsz, hfnz⟩, ?_, ?_⟩
    · show (mark_completed i (output_path pre i) r.store).find z = some jz
      rw [mark_completed_find, hfz]
      have hzid : jz.id = z := (find_eq_some_iff_aux hfz).2
      simp only [Option.map_some', hzid]
      rw [if_neg (fun he => hne he.symm)]
    · intro it hit
      replace hit : it ∈ allItems r := by
        have hAll : allItems { r with
            store := mark_completed i (output_path pre i) r.store
            prod := ProdState.idle } = allItems r := by
          simp [allItems, enqList, hp]
        rw [hAll] at hit
        exact hit
      exact hni it hit
    · intro i2 hi2
      replace hi2 : ProdState.idle = ProdState.working i2 := hi2
      cases hi2
  | genFail i hp =>
    have hne : i ≠ z := hnw i hp
    refine ⟨⟨jz, ?_, hsz, hfnz⟩, ?_, ?_⟩
    · show (mark_failed i r.store).find z = some jz
      rw [mark_failed_find, hfz]
      have hzid : jz.id = z := (find_eq_some_iff_aux hfz).2
      simp only [Option.map_some', hzid]
      rw [if_neg (fun he => hne he.symm)]
    · intro it hit
      replace hit : it ∈ allItems r := by
        have hAll : allItems { r with
            store := mark_failed i r.store
            prod := ProdState.idle } = allItems r := by
          simp [allItems, enqList, hp]
        rw [hAll] at hit
        exact hit
      exact hni it hit
    · intro i2 hi2
      replace hi2 : ProdState.idle = ProdState.working i2 := hi2
      cases hi2
  | enqueue it hpe _ =>
    refine ⟨⟨jz, hfz, hsz, hfnz⟩, ?_, ?_⟩
    · intro it2 hit2
      replace hit2 : it2 ∈ allItems r := by
        have hAll : allItems { r with
            queue := r.queue ++ [it]
            prod := ProdState.idle } = allItems r := by
          simp [allItems, enqList, hpe]
        rw [hAll] at hit2
        exact hit2
      exact hni it2 hit2
    · intro i2 hi2
      replace hi2 : ProdState.idle = ProdState.working i2 := hi2
      cases hi2
  | dequeue it rest hcnone hq =>
    refine ⟨⟨jz, hfz, hsz, hfnz⟩, ?_, ?_⟩
    · intro it2 hit2
      have hmm : it2 ∈ allItems r := by
        replace hit2 : it2 ∈ rest ++ enqList r.prod ++ [it] := hit2
        simp only [allItems, hcnone, hq, Option.toList, List.mem_append,
          List.mem_cons, List.not_mem_nil, or_false, List.mem_singleton] at hit2 ⊢
        tauto
      exact hni it2 hmm
    · intro i2 hi2
      replace hi2 : r.prod = ProdState.working i2 := hi2
      exact hnw i2 hi2
  | consProcess it env ce sz hc =>
    have hitmem : it ∈ allItems r := by
      simp [allItems, hc, Option.toList]
    have hne : it.prompt_id ≠ z := hni it hitmem
    have hzid : jz.id = z := (find_eq_some_iff_aux hfz).2
    have hfz2 : (uploader_process env ce sz it r.store).find z = some jz := by
      rw [uploader_process_eq]
      by_cases hszb : MAX_IMAGE_SIZE_KB * 1024 < sz
      · rw [if_pos hszb]
        show (mark_completed it.prompt_id it.image_path r.store).find z = some jz
        rw [mark_completed_find, hfz]
        simp only [Option.map_some', hzid]
        rw [if_neg (fun he => hne he.symm)]
      · rw [if_neg hszb]
        show (mark_generated it.prompt_id it.image_path r.store).find z = some jz
        rw [mark_generated_find, hfz]
        simp only [Option.map_some', hzid]
        rw [if_neg (fun he => hne he.symm)]
    refine ⟨⟨jz, hfz2, hsz, hfnz⟩, ?_, ?_⟩
    · intro it2 hit2
      replace hit2 : it2 ∈ r.queue ++ enqList r.prod ++ ([] : List QItem) := hit2
      rw [List.append_nil] at hit2
      have hmm : it2 ∈ allItems r := by
        simp only [allItems, hc, Option.toList]
        exact List.mem_append.mpr (Or.inl hit2)
      exact hni it2 hmm
    · intro i2 hi2
      replace hi2 : r.prod = ProdState.working i2 := hi2
      exact hnw i2 hi2

theorem genStuck_reach {pre : String} {s0 : Store} {r : RunState}
    {z : Nat} {fz : String} (hs : StoreInv s0)
    (hrun : RunReach pre (initRun s0) r)
    (h0 : GenStuck z fz (initRun s0)) : GenStuck z fz r := by
  induction hrun with
  | refl => exact h0
  | step hreach hstep ih =>
    exact genStuck_step hstep (runInv_reach hreach (runInv_init hs)) ih

/-- C3: the threaded run never retries the upload of a job left in
status generated by a prior run.  get_next_generated is imported by
main.py but never called, and the hand-off queue receives only items
the generator produced in the current run, so a job that starts the run
in generated is never handed to the uploader: in every reachable state
of the run it is still generated with its original artifact_ref and is
never completed — even though the model retains the consumer
mark_completed branch.  This contradicts the claimed (and clearly
intended) behavior that such a job is re-consumed and ends completed
with its artifact_ref unchanged. -/
theorem leftover_generated_job_stays_generated
    (pre : String) (s0 : Store) (r : RunState) (z : Nat) (fz : String)
    (j0 : Job) (hs : StoreInv s0) (hfind : s0.find z = some j0)
    (hst : j0.status = Status.generated) (hfn : j0.filename = some fz)
    (hrun : RunReach pre (initRun s0) r) :
    ∃ j, r.store.find z = some j ∧ j.status = Status.generated ∧
      j.status ≠ Status.completed ∧ j.filename = some fz ∧
      ∀ it ∈ allItems r, it.prompt_id ≠ z := by
  have h0 : GenStuck z fz (initRun s0) := by
    refine ⟨⟨j0, hfind, hst, hfn⟩, ?_, ?_⟩
    · intro it hit
      simp [initRun, allItems, enqList] at hit
    · intro i hi
      replace hi : ProdState.idle = ProdState.working i := hi
      cases hi
  obtain ⟨⟨j, hf, hstj, hfnj⟩, hni, _⟩ := genStuck_reach hs hrun h0
  refine ⟨j, hf, hstj, ?_, hfnj, hni⟩
  rw [hstj]
  intro h
  cases h

/-- Closed instance of leftover_generated_job_stays_generated: a store
holding one leftover generated job, after the generator observes no
pending work and stops. -/
theorem leftover_generated_job_stays_generated_witness :
    StoreInv exGenStore ∧
    exGenStore.find 1 = some exGenJob ∧
    exGenJob.status = Status.generated ∧
    exGenJob.filename = some "output/cat_1.png" ∧
    (∃ j, exRunGenStopped.store.find 1 = some j ∧
      j.status = Status.generated ∧ j.status ≠ Status.completed ∧
      j.filename = some "output/cat_1.png" ∧
      ∀ it ∈ allItems exRunGenStopped, it.prompt_id ≠ 1) :=
  ⟨by decide, by decide, rfl, rfl,
    leftover_generated_job_stays_generated "cat" exGenStore exRunGenStopped
      1 "output/cat_1.png" exGenJob (by decide) (by decide) rfl rfl
      (RunReach.step RunReach.refl
        (Step.claimNone (initRun exGenStore) rfl (by decide)))⟩

/-! Claim C4. -/

/-- C4: in every reachable store state, artifact_ref (the filename
column) is set and non-empty on every row whose status is generated or
completed, and NULL on every row whose status is pending or
in_progress; in particular a job requeued to pending after a generation
failure carries no artifact_ref. -/
theorem artifact_ref_status_invariant (s : Store) (hr : ReachStore s) :
    ∀ j ∈ s.jobs,
      ((j.status = Status.generated ∨ j.status = Status.completed) →
        j.filename ≠ none ∧ j.filename ≠ some "") ∧
      ((j.status = Status.pending ∨ j.status = Status.in_progress) →
        j.filename = none) := by
  intro j hj
  have h := (reachStore_storeInv hr).1 j hj
  exact ⟨h.1, h.2.1⟩

/-- Closed instance of artifact_ref_status_invariant on a freshly
seeded store. -/
theorem artifact_ref_status_invariant_witness :
    ReachStore (seed_database ["a cat"] emptyStore).1 ∧
    ∀ j ∈ (seed_database ["a cat"] emptyStore).1.jobs,
      ((j.status = Status.generated ∨ j.status = Status.completed) →
        j.filename ≠ none ∧ j.filename ≠ some "") ∧
      ((j.status = Status.pending ∨ j.status = Status.in_progress) →
        j.filename = none) :=
  ⟨ReachStore.seed ["a cat"] emptyStore ReachStore.empty,
    artifact_ref_status_invariant _
      (ReachStore.seed ["a cat"] emptyStore ReachStore.empty)⟩

/-! Claim C9. -/

/-- C9: in every reachable store state, completed_at is set exactly on
rows whose status is completed — mark_completed is the only operation
that sets it, and no reachable sequence of transitions leaves a
non-completed row with completed_at set. -/
theorem completed_at_iff_completed (s : Store) (hr : ReachStore s) :
    ∀ j ∈ s.jobs, (j.completedAt = true ↔ j.status = Status.completed) :=
  fun j hj => ((reachStore_storeInv hr).1 j hj).2.2

/-- Closed instance of completed_at_iff_completed on a freshly seeded
store. -/
theorem completed_at_iff_completed_witness :
    ReachStore (seed_database ["a cat"] emptyStore).1 ∧
    ∀ j ∈ (seed_database ["a cat"] emptyStore).1.jobs,
      (j.completedAt = true ↔ j.status = Status.completed) :=
  ⟨ReachStore.seed ["a cat"] emptyStore ReachStore.empty,
    completed_at_iff_completed _
      (ReachStore.seed ["a cat"] emptyStore ReachStore.empty)⟩

/-! Claim C5. -/

/-- C5: reset_interrupted moves every in_progress row to pending —
never to generated or completed, witnessed by the fact that no
in_progress row survives and each one reappears as the same row in
pending — leaves rows of every other status untouched, does not mutate
the generated (or completed) counts, and returns the pair of the reset
count and the pending-upload count. -/
theorem reset_interrupted_contract (s : Store) :
    (∀ j ∈ s.jobs, j.status = Status.in_progress →
      { j with status := Status.pending } ∈ (reset_interrupted s).1.jobs) ∧
    (∀ j ∈ s.jobs, j.status ≠ Status.in_progress →
      j ∈ (reset_interrupted s).1.jobs) ∧
    (∀ j ∈ (reset_interrupted s).1.jobs, j.status ≠ Status.in_progress) ∧
    ((reset_interrupted s).1.jobs.length = s.jobs.length) ∧
    ((reset_interrupted s).2.1 = countStatus s Status.in_progress) ∧
    ((reset_interrupted s).2.2 = countStatus s Status.generated) ∧
    (countStatus (reset_interrupted s).1 Status.generated
      = countStatus s Status.generated) ∧
    (countStatus (reset_interrupted s).1 Status.completed
      = countStatus s Status.completed) := by
  have hgen : countStatus (reset_interrupted s).1 Status.generated
      = countStatus s Status.generated :=
    countStatus_reset s Status.generated (by intro h; cases h) (by intro h; cases h)
  refine ⟨?_, ?_, ?_, ?_, rfl, hgen, hgen, ?_⟩
  · intro j hj hst
    rw [reset_interrupted_jobs]
    exact List.mem_map.mpr ⟨j, hj, by rw [if_pos hst]⟩
  · intro j hj hst
    rw [reset_interrupted_jobs]
    exact List.mem_map.mpr ⟨j, hj, by rw [if_neg hst]⟩
  · intro j' hj'
    rw [reset_interrupted_jobs] at hj'
    obtain ⟨j, _, rfl⟩ := List.mem_map.mp hj'
    by_cases hst : j.status = Status.in_progress
    · rw [if_pos hst]
      intro h
      cases h
    · rw [if_neg hst]
      exact hst
  · rw [reset_interrupted_jobs, List.length_map]
  · exact countStatus_reset s Status.completed
      (by intro h; cases h) (by intro h; cases h)

/-- Closed instance of reset_interrupted_contract on a two-row store
with one in_progress row and one generated row. -/
theorem reset_interrupted_contract_witness :
    (∀ j ∈ exStoreC5.jobs, j.status = Status.in_progress →
      { j with status := Status.pending } ∈ (reset_interrupted exStoreC5).1.jobs) ∧
    (∀ j ∈ exStoreC5.jobs, j.status ≠ Status.in_progress →
      j ∈ (reset_interrupted exStoreC5).1.jobs) ∧
    (∀ j ∈ (reset_interrupted exStoreC5).1.jobs,
      j.status ≠ Status.in_progress) ∧
    ((reset_interrupted exStoreC5).1.jobs.length = exStoreC5.jobs.length) ∧
    ((reset_interrupted exStoreC5).2.1
      = countStatus exStoreC5 Status.in_progress) ∧
    ((reset_interrupted exStoreC5).2.2
      = countStatus exStoreC5 Status.generated) ∧
    (countStatus (reset_interrupted exStoreC5).1 Status.generated
      = countStatus exStoreC5 Status.generated) ∧
    (countStatus (reset_interrupted exStoreC5).1 Status.completed
      = countStatus exStoreC5 Status.completed) :=
  reset_interrupted_contract exStoreC5

/-! Claim C6. -/

/-- C6: in any reachable run state, when the uploader holds a queue
item whose upload attempt fails (every attempted upload fails, and the
attempt happens exactly when the size precheck passes), the consumer
re-marks the job generated — never pending — and the row is unchanged:
the same record, with the same artifact_ref, before and after the
failed attempt. -/
theorem upload_failure_requeues_generated
    (pre : String) (s0 : Store) (r : RunState) (it : QItem)
    (env : Env) (ce : Except PyError (String × String)) (sz : Nat)
    (hs : StoreInv s0) (hrun : RunReach pre (initRun s0) r)
    (hcons : r.cons = some it) (hsz : sz ≤ MAX_IMAGE_SIZE_KB * 1024) :
    ∃ j, r.store.find it.prompt_id = some j ∧
      j.status = Status.generated ∧ j.filename = some it.image_path ∧
      uploader_process env ce sz it r.store
        = mark_generated it.prompt_id it.image_path r.store ∧
      (uploader_process env ce sz it r.store).find it.prompt_id = some j := by
  have hinv := runInv_reach hrun (runInv_init hs)
  obtain ⟨_, hitems, _, _, _⟩ := hinv
  have hitmem : it ∈ allItems r := by
    simp [allItems, hcons, Option.toList]
  obtain ⟨j, hfind, hst, hfn⟩ := hitems it hitmem
  have hproc : uploader_process env ce sz it r.store
      = mark_generated it.prompt_id it.image_path r.store := by
    rw [uploader_process_eq, if_neg (by omega)]
  refine ⟨j, hfind, hst, hfn, hproc, ?_⟩
  rw [hproc, mark_generated_find, hfind]
  have hid : j.id = it.prompt_id := (find_eq_some_iff_aux hfind).2
  have hrec : { j with
      status := Status.generated
      filename := some it.image_path } = j := by
    obtain ⟨a, b, c, d, e⟩ := j
    simp only [Job.mk.injEq]
    simp_all
  simp only [Option.map_some']
  rw [if_pos hid, hrec]

/-- Closed instance of upload_failure_requeues_generated: a run that
claims the single pending job, generates it, enqueues it and dequeues
it, so the uploader holds the item. -/
theorem upload_failure_requeues_generated_witness :
    StoreInv exStore1 ∧ exRunCons.cons = some exItem1 ∧
    (0 : Nat) ≤ MAX_IMAGE_SIZE_KB * 1024 ∧
    (∃ j, exRunCons.store.find exItem1.prompt_id = some j ∧
      j.status = Status.generated ∧ j.filename = some exItem1.image_path ∧
      uploader_process envMissing exCE 0 exItem1 exRunCons.store
        = mark_generated exItem1.prompt_id exItem1.image_path exRunCons.store ∧
      (uploader_process envMissing exCE 0 exItem1 exRunCons.store).find
        exItem1.prompt_id = some j) :=
  ⟨by decide, rfl, by decide,
    upload_failure_requeues_generated "cat" exStore1 exRunCons exItem1
      envMissing exCE 0 (by decide)
      (RunReach.step (RunReach.step (RunReach.step (RunReach.step RunReach.refl
        (Step.claim (initRun exStore1) exJob1 rfl (by decide)))
        (Step.genSuccess _ 1 rfl))
        (Step.enqueue _ exItem1 rfl (by decide)))
        (Step.dequeue _ exItem1 [] rfl rfl))
      rfl (by decide)⟩

/-! Claim C8. -/

/-- C8: seeding is idempotent — running seed_database a second time
with the same prompt list returns the same store and the same total row
count; a prompt is inserted as a new pending row only when no row with
that prompt exists; a duplicate insert is a no-op, not an error; and
the returned value is the total row count of the table. -/
theorem seed_database_idempotent (ps : List String) (s : Store) :
    ((seed_database ps (seed_database ps s).1).1 = (seed_database ps s).1) ∧
    ((seed_database ps (seed_database ps s).1).2 = (seed_database ps s).2) ∧
    ((seed_database ps s).2 = (seed_database ps s).1.jobs.length) ∧
    (∀ j ∈ s.jobs, j ∈ (seed_database ps s).1.jobs) ∧
    (∀ j ∈ (seed_database ps s).1.jobs,
      j ∈ s.jobs ∨ (j.prompt ∈ ps ∧ j.status = Status.pending ∧
        j.filename = none ∧ j.completedAt = false)) ∧
    (∀ p, hasPrompt s p = true → insert_or_ignore s p = s) := by
  have hstore : (seed_database ps (seed_database ps s).1).1
      = (seed_database ps s).1 := by
    show ps.foldl insert_or_ignore (ps.foldl insert_or_ignore s)
      = ps.foldl insert_or_ignore s
    exact fold_insert_noop (hasPrompt_fold_all ps s)
  refine ⟨hstore, ?_, rfl, ?_, ?_, ?_⟩
  · exact congrArg (fun st : Store => st.jobs.length) hstore
  · exact fun j hj => mem_fold_insert hj
  · exact fun j hj => mem_fold_insert_inv hj
  · exact fun p hp => insert_or_ignore_noop hp

/-- Closed instance of seed_database_idempotent on a fresh store and a
two-prompt list. -/
theorem seed_database_idempotent_witness :
    ((seed_database ["a cat", "a dog"]
        (seed_database ["a cat", "a dog"] emptyStore).1).1
      = (seed_database ["a cat", "a dog"] emptyStore).1) ∧
    ((seed_database ["a cat", "a dog"]
        (seed_database ["a cat", "a dog"] emptyStore).1).2
      = (seed_database ["a cat", "a dog"] emptyStore).2) ∧
    ((seed_database ["a cat", "a dog"] emptyStore).2
      = (seed_database ["a cat", "a dog"] emptyStore).1.jobs.length) ∧
    (∀ j ∈ emptyStore.jobs,
      j ∈ (seed_database ["a cat", "a dog"] emptyStore).1.jobs) ∧
    (∀ j ∈ (seed_database ["a cat", "a dog"] emptyStore).1.jobs,
      j ∈ emptyStore.jobs ∨ (j.prompt ∈ ["a cat", "a dog"] ∧
        j.status = Status.pending ∧ j.filename = none ∧
        j.completedAt = false)) ∧
    (∀ p, hasPrompt emptyStore p = true →
      insert_or_ignore emptyStore p = emptyStore) :=
  seed_database_idempotent ["a cat", "a dog"] emptyStore

/-! Claim C10. -/

/-- C10: the hand-off queue has the fixed capacity UPLOAD_QUEUE_SIZE;
in every reachable run state the queue holds at most that many items,
and the producer holds at most UPLOAD_QUEUE_SIZE + 1
generated-but-unhandled artifacts in flight (queue contents plus the
one item it is currently enqueueing); moreover from a state in which
the producer is enqueueing an item, the only step that moves the
producer is the enqueue itself, which requires free space and appends
exactly that item — the producer blocks on a full queue and never drops
the item. -/
theorem backpressure_bound (pre : String) (s0 : Store) (r r2 : RunState)
    (hs : StoreInv s0) (hrun : RunReach pre (initRun s0) r) :
    r.queue.length ≤ UPLOAD_QUEUE_SIZE ∧
    r.queue.length + (enqList r.prod).length ≤ UPLOAD_QUEUE_SIZE + 1 ∧
    (∀ it, r.prod = ProdState.enqueuing it → Step pre r r2 →
      r2.prod = ProdState.enqueuing it ∨
      (r.queue.length < UPLOAD_QUEUE_SIZE ∧ r2.queue = r.queue ++ [it] ∧
        r2.prod = ProdState.idle)) := by
  have hinv := runInv_reach hrun (runInv_init hs)
  obtain ⟨_, _, _, _, hqb⟩ := hinv
  refine ⟨hqb, ?_, ?_⟩
  · have henq : (enqList r.prod).length ≤ 1 := by
      cases r.prod <;> simp [enqList]
    omega
  · intro it hpe hstep
    cases hstep with
    | claim j hp hget =>
      rw [hpe] at hp
      cases hp
    | claimNone hp hget =>
      rw [hpe] at hp
      cases hp
    | genSuccess i hp =>
      rw [hpe] at hp
      cases hp
    | genSuccessNoUpload i hp =>
      rw [hpe] at hp
      cases hp
    | genFail i hp =>
      rw [hpe] at hp
      cases hp
    | enqueue it2 hpe2 hlen =>
      rw [hpe] at hpe2
      injection hpe2 with h2
      subst h2
      exact Or.inr ⟨hlen, rfl, rfl⟩
    | dequeue it2 rest hc hq => exact Or.inl hpe
    | consProcess it2 env ce sz hc => exact Or.inl hpe

/-- Closed instance of backpressure_bound at a run state in which the
producer is about to enqueue the item it just generated, together with
the enqueue step it then performs. -/
theorem backpressure_bound_witness :
    StoreInv exStore1 ∧
    (exRunEnq.queue.length ≤ UPLOAD_QUEUE_SIZE ∧
      exRunEnq.queue.length + (enqList exRunEnq.prod).length
        ≤ UPLOAD_QUEUE_SIZE + 1 ∧
      (∀ it, exRunEnq.prod = ProdState.enqueuing it →
        Step "cat" exRunEnq exRunEnqDone →
        exRunEnqDone.prod = ProdState.enqueuing it ∨
        (exRunEnq.queue.length < UPLOAD_QUEUE_SIZE ∧
          exRunEnqDone.queue = exRunEnq.queue ++ [it] ∧
          exRunEnqDone.prod = ProdState.idle))) :=
  ⟨by decide,
    backpressure_bound "cat" exStore1 exRunEnq exRunEnqDone (by decide)
      (RunReach.step (RunReach.step RunReach.refl
        (Step.claim (initRun exStore1) exJob1 rfl (by decide)))
        (Step.genSuccess _ 1 rfl))⟩

end ImgGenArkiv
